import Mathlib

/-!
Shallow embedding of the exam-document extraction pipeline of `src/main.py`
(class `ExamParser`, lines 53-160): the line classifier (the three regexes of
lines 73-75), the image associator (lines 125-126), the parser state machine
(loop of lines 121-157), the normalizer (`finalize_question`, lines 90-119)
and the whole-document entry point (lines 55-63).  Paragraph texts are Lean
strings; image blobs are opaque byte lists already resolved by the docx
collaborator, exactly as the Python loop receives them from
`get_image_from_paragraph`.  Character classes model the ASCII range of
Python's `\s`, `\d` and `str.upper`/`str.lower`.
-/

/-- Python whitespace (`\s`, `str.strip()`), ASCII range. -/
def pySpace (c : Char) : Bool :=
  c = ' ' || c = '\t' || c = '\n' || c = '\r' || c = '\x0b' || c = '\x0c'

/-- Python `str.strip()` on a character list. -/
def pyStripList (l : List Char) : List Char :=
  ((l.dropWhile pySpace).reverse.dropWhile pySpace).reverse

/-- Python `str.strip()` (used at lines 122, 135, 148 of `src/main.py`). -/
def pyStrip (s : String) : String := ⟨pyStripList s.data⟩

/-- Python `str.strip("**")` (line 135): remove leading and trailing `*`. -/
def stripStars (s : String) : String :=
  ⟨((s.data.dropWhile (· = '*')).reverse.dropWhile (· = '*')).reverse⟩

/-- The uppercase form of a lowercase ASCII letter, identity elsewhere. -/
def lowToUp (p : Char) : Char :=
  if 'a' ≤ p ∧ p ≤ 'z' then Char.ofNat (p.toNat - 32) else p

/-- Match a lowercase ASCII literal pattern case-insensitively against the
head of `cs` (the effect of `re.IGNORECASE` on the literal of line 75),
returning the unconsumed remainder on success. -/
def ciMatch : List Char → List Char → Option (List Char)
  | [], cs => some cs
  | _ :: _, [] => none
  | p :: ps, c :: cs => if c = p ∨ c = lowToUp p then ciMatch ps cs else none

/-- `re_q_start = r'^\s*\*\*(\d+)\.\s*(.*)'` (line 73) applied with
`re.match`: on success returns group 1 (the digits) and group 2 (the rest of
the line: `.` does not cross a newline). -/
def matchQStart (s : String) : Option (String × String) :=
  match s.data.dropWhile pySpace with
  | c1 :: c2 :: rest =>
    if c1 = '*' ∧ c2 = '*' then
      match rest.takeWhile Char.isDigit, rest.dropWhile Char.isDigit with
      | d :: ds, c3 :: rest3 =>
          if c3 = '.' then
            some (⟨d :: ds⟩, ⟨(rest3.dropWhile pySpace).takeWhile (· ≠ '\n')⟩)
          else none
      | _, _ => none
    else none
  | _ => none

/-- `re_correct = r'^\s*\*\*Correct Answer:\*\*\s*(.*)'` with `re.IGNORECASE`
(line 75) applied with `re.match`: on success returns group 1. -/
def matchCorrect (s : String) : Option String :=
  match s.data.dropWhile pySpace with
  | c1 :: c2 :: rest =>
    if c1 = '*' ∧ c2 = '*' then
      match ciMatch "correct answer:".data rest with
      | some (d1 :: d2 :: r2) =>
          if d1 = '*' ∧ d2 = '*' then
            some ⟨(r2.dropWhile pySpace).takeWhile (· ≠ '\n')⟩
          else none
      | _ => none
    else none
  | _ => none

/-- `re_option = r'^\s*(?:□\s*)?([A-E])\.\s*(.*)'` (line 74) applied with
`re.match`: on success returns group 1 (the label letter) and group 2. -/
def matchOption (s : String) : Option (String × String) :=
  let cs := s.data.dropWhile pySpace
  let cs2 := match cs with
             | '□' :: r => r.dropWhile pySpace
             | _ => cs
  match cs2 with
  | c :: '.' :: rest =>
      if c = 'A' ∨ c = 'B' ∨ c = 'C' ∨ c = 'D' ∨ c = 'E' then
        some (⟨[c]⟩, ⟨(rest.dropWhile pySpace).takeWhile (· ≠ '\n')⟩)
      else none
  | _ => none

/-- Tagged outcome of classifying one paragraph text. -/
inductive LineClass where
  | qstart (qid : String) (rest : String)
  | correctAns (raw : String)
  | optionLine (label : String) (rest : String)
  | other
  deriving DecidableEq, Repr

/-- First-match-wins priority classification of one (already stripped)
paragraph text, mirroring the `if match_q / match_a / match_o` order of
lines 131-151.  The carried strings are the raw regex groups; the use-site
transformations (`.upper()`, `.strip()`, `.strip("**")`, token splitting)
happen in `applyEvent`, as in the code. -/
def classify (text : String) : LineClass :=
  match matchQStart text with
  | some (qid, rest) => .qstart qid rest
  | none =>
    match matchCorrect text with
    | some raw => .correctAns raw
    | none =>
      match matchOption text with
      | some (label, rest) => .optionLine label rest
      | none => .other

/-- A delimiter of the token split `re.split(r'[,\s]+', raw)` (line 142). -/
def isDelim (c : Char) : Bool := c = ',' || pySpace c

/-- Accumulating scanner producing the maximal non-delimiter runs of a
character list. -/
def splitTokensAux : List Char → List Char → List String
  | [], acc => if acc.isEmpty then [] else [⟨acc.reverse⟩]
  | c :: cs, acc =>
    if isDelim c then
      if acc.isEmpty then splitTokensAux cs [] else ⟨acc.reverse⟩ :: splitTokensAux cs []
    else splitTokensAux cs (c :: acc)

/-- `[x.strip().upper() for x in re.split(r'[,\s]+', raw) if x.strip()]`
(line 142): the nonempty maximal runs between commas/whitespace, uppercased
(tokens contain no whitespace, so the inner `strip` is the identity). -/
def splitTokens (raw : String) : List String :=
  (splitTokensAux raw.data []).map (fun t => ⟨t.data.map Char.toUpper⟩)

/-- An image blob: the opaque byte sequence the docx collaborator resolves
for a paragraph (`related_parts[rId].blob`). -/
abbrev Blob := List Nat

/-- One unit of the input stream: a paragraph's text together with its
embedded image blob, if any. -/
@[ext]
structure RawParagraph where
  text : String
  image : Option Blob
  deriving DecidableEq, Repr

/-- One emitted option record (the dict of lines 99-103). -/
structure OptionRec where
  text : String
  is_correct : Bool
  original_label : String
  deriving DecidableEq, Repr

/-- The immutable part of the Python `Question` object (lines 29-35) that the
parser produces; the quiz-session fields (`user_answers`, ...) are
initialized constants and are not part of parsing. -/
structure Question where
  id : Nat
  text : String
  options : List OptionRec
  is_multichoice : Bool
  image_data : Option Blob
  deriving DecidableEq, Repr

/-- The mutable parse state: the bank built so far plus the pending-question
accumulator variables of lines 65-71.  `current_options` models the Python
dict as an insertion-ordered association list with overwrite-in-place. -/
structure PState where
  questions : List Question
  current_q_id : Option String
  current_text : List String
  current_options : List (String × String)
  last_option_label : Option String
  current_correct : List String
  current_image_data : Option Blob
  deriving DecidableEq, Repr

/-- The state at loop entry (lines 65-71). -/
def initState : PState := ⟨[], none, [], [], none, [], none⟩

/-- Python truthiness of `current_q_id` (`None` and `""` are falsy). -/
def pyTruthyId : Option String → Bool
  | none => false
  | some s => s ≠ ""

/-- Python truthiness of an optional blob (`None` and `b''` are falsy). -/
def pyTruthyBlob : Option Blob → Bool
  | none => false
  | some b => b ≠ []

/-- `current_options[label] = text` (line 149): overwrite in place, or append
a new entry in insertion order. -/
def setOpt : List (String × String) → String → String → List (String × String)
  | [], k, v => [(k, v)]
  | (k', v') :: rest, k, v =>
    if k' = k then (k', v) :: rest else (k', v') :: setOpt rest k v

/-- `current_options[k] += v` (line 157): append to the value stored at an
existing key (the state-machine invariant guarantees the key is present;
an absent key would be a Python `KeyError`). -/
def appendOpt : List (String × String) → String → String → List (String × String)
  | [], _, _ => []
  | (k', v') :: rest, k, v =>
    if k' = k then (k', v' ++ v) :: rest else (k', v') :: appendOpt rest k v

/-- `current_options[key]` for a present key (line 100). -/
def lookupOpt : List (String × String) → String → String
  | [], _ => ""
  | (k', v) :: rest, k => if k' = k then v else lookupOpt rest k

/-- `sorted(current_options.keys())` (line 93): ascending lexicographic sort
of the label strings, comparing code-point sequences as Python does. -/
def sortKeys (l : List String) : List String :=
  l.insertionSort (fun a b => ¬ b.data < a.data)

/-- Python `int(...)` on the digit string captured by `re_q_start`
(line 106): base-10 value of the digits. -/
def digitsToNat (l : List Char) : Nat :=
  l.foldl (fun n c => n * 10 + (c.toNat - '0'.toNat)) 0

/-- Lines 93-111: build the `Question` object from a passing accumulator. -/
def buildQuestion (qid : String) (s : PState) : Question :=
  { id := digitsToNat qid.data
    text := pyStrip (String.intercalate "\n" s.current_text)
    options := (sortKeys (s.current_options.map Prod.fst)).map (fun k =>
      { text := lookupOpt s.current_options k
        is_correct := decide (k ∈ s.current_correct)
        original_label := k })
    is_multichoice := decide (1 < s.current_correct.length)
    image_data := s.current_image_data }

/-- `finalize_question` (lines 90-119): append the built question iff
`current_q_id and current_options and current_correct` is truthy, then reset
every accumulator variable. -/
def finalize_question (s : PState) : PState :=
  let qs :=
    match s.current_q_id with
    | some qid =>
        if qid ≠ "" ∧ s.current_options ≠ [] ∧ s.current_correct ≠ [] then
          s.questions ++ [buildQuestion qid s]
        else s.questions
    | none => s.questions
  ⟨qs, none, [], [], none, [], none⟩

/-- Lines 125-126: attach the paragraph's blob to the accumulator iff the
blob is truthy, a question is open and `current_correct` is still empty.
Note there is no `current_image_data is None` guard: a later qualifying
blob overwrites an earlier one. -/
def attachImage (s : PState) (p : RawParagraph) : PState :=
  if pyTruthyBlob p.image ∧ pyTruthyId s.current_q_id ∧ s.current_correct = [] then
    { s with current_image_data := p.image }
  else s

/-- Lines 131-157: dispatch on the classified line and update the state. -/
def applyEvent (s : PState) (text : String) : PState :=
  match classify text with
  | .qstart qid rest0 =>
      { finalize_question s with
          current_q_id := some qid,
          current_text := if stripStars rest0 = "" then [] else [stripStars rest0] }
  | .correctAns raw => { s with current_correct := splitTokens raw }
  | .optionLine label0 rest =>
      { s with
          current_options :=
            setOpt s.current_options ⟨label0.data.map Char.toUpper⟩ (pyStrip rest),
          last_option_label := some ⟨label0.data.map Char.toUpper⟩ }
  | .other =>
      if pyTruthyId s.current_q_id then
        if s.current_options = [] then
          { s with current_text := s.current_text ++ [text] }
        else
          match s.last_option_label with
          | some l =>
              if l = "" then s
              else { s with current_options := appendOpt s.current_options l ("\n" ++ text) }
          | none => s
      else s

/-- One iteration of the paragraph loop (lines 121-157): strip the text,
run the image associator, skip the paragraph when both text and blob are
falsy, otherwise apply the classified event. -/
def processPara (s : PState) (p : RawParagraph) : PState :=
  if pyStrip p.text = "" ∧ ¬ pyTruthyBlob p.image then attachImage s p
  else applyEvent (attachImage s p) (pyStrip p.text)

/-- The full single pass over a paragraph stream, including the trailing
`finalize_question()` of line 159. -/
def parseParas (ps : List RawParagraph) : List Question :=
  (finalize_question (ps.foldl processPara initState)).questions

/-- Outcome of the environment-dependent document access of lines 57-63:
the path check `os.path.exists` and the `Document(filepath)` constructor;
on success the collaborator yields the paragraph stream. -/
inductive DocAccess where
  | missing
  | openError (msg : String)
  | opened (paras : List RawParagraph)

/-- `ExamParser.parse` (lines 54-160), with the document-access outcome as
an explicit input. -/
def ExamParser.parse (filepath : String) : DocAccess → List Question × Option String
  | .missing => ([], some ("File not found: " ++ filepath))
  | .openError e => ([], some ("Error reading file: " ++ e))
  | .opened ps => (parseParas ps, none)

/-- The CorrectAnswerLine rule exactly as the specification words it, for
comparison with the implementation: a case-insensitive literal
`Correct Answer:` text at the start of the line, followed by one or more
letter tokens separated by commas and/or whitespace, each uppercased. -/
def claimCorrectLabels (s : String) : Option (List String) :=
  match ciMatch "correct answer:".data s.data with
  | some rest =>
      let toks := splitTokens ⟨rest⟩
      if toks ≠ [] ∧ toks.all (fun t => t.data.all Char.isAlpha && !t.isEmpty) then some toks
      else none
  | none => none

/-- The per-question shape every bank entry satisfies: at least one option,
and option records in strictly ascending label order (lexicographic on code
points). -/
def BankProp (q : Question) : Prop :=
  1 ≤ q.options.length
  ∧ (q.options.map (fun o => o.original_label)).Sorted
      (fun a b => a.data < b.data)

/-- The loop invariant of the parse state: the option dict has no duplicate
keys; whenever it is nonempty, `last_option_label` is set and is one of its
keys; and every question already in the bank satisfies `BankProp`. -/
def StateInv (s : PState) : Prop :=
  (s.current_options.map Prod.fst).Nodup
  ∧ (s.current_options ≠ [] →
      ∃ l, s.last_option_label = some l ∧ l ∈ s.current_options.map Prod.fst)
  ∧ ∀ q ∈ s.questions, BankProp q

/-- The comparison used by `sortKeys` is transitive. -/
instance : IsTrans String (fun a b => ¬ b.data < a.data) :=
  ⟨fun _ _ _ hab hbc => not_lt.mpr (le_trans (not_lt.mp hab) (not_lt.mp hbc))⟩

/-- The comparison used by `sortKeys` is total. -/
instance : IsTotal String (fun a b => ¬ b.data < a.data) :=
  ⟨fun a b => by
    rcases le_total a.data b.data with h | h
    · exact Or.inl (not_lt.mpr h)
    · exact Or.inr (not_lt.mpr h)⟩

/-- `sortKeys` permutes its input. -/
theorem sortKeys_perm (l : List String) : List.Perm (sortKeys l) l :=
  List.perm_insertionSort _ l

/-- On a duplicate-free input, `sortKeys` is strictly ascending. -/
theorem sortKeys_sorted_lt (l : List String) (h : l.Nodup) :
    (sortKeys l).Sorted (fun a b => a.data < b.data) := by
  have hs := List.sorted_insertionSort (fun a b : String => ¬ b.data < a.data) l
  have hn : (sortKeys l).Nodup := (sortKeys_perm l).nodup_iff.mpr h
  exact (hs.and hn).imp (fun h' =>
    lt_of_le_of_ne (not_lt.mp h'.1) (fun hd => h'.2 (congrArg String.mk hd)))

/-- `sortKeys` preserves length. -/
theorem sortKeys_length (l : List String) : (sortKeys l).length = l.length :=
  (sortKeys_perm l).length_eq

/-- Key set of `setOpt`: unchanged on overwrite, extended by `k` otherwise. -/
theorem keys_setOpt (l : List (String × String)) (k v : String) :
    (setOpt l k v).map Prod.fst =
      if k ∈ l.map Prod.fst then l.map Prod.fst else l.map Prod.fst ++ [k] := by
  induction l with
  | nil => simp [setOpt]
  | cons a t ih =>
    obtain ⟨k', v'⟩ := a
    by_cases hk : k' = k
    · subst hk
      simp [setOpt]
    · by_cases hm : k ∈ t.map Prod.fst
      · simp [setOpt, hk, ih, hm, Ne.symm hk]
      · simp [setOpt, hk, ih, hm, Ne.symm hk]

/-- The stored key is always a key of `setOpt`'s result. -/
theorem mem_keys_setOpt (l : List (String × String)) (k v : String) :
    k ∈ (setOpt l k v).map Prod.fst := by
  rw [keys_setOpt]
  split_ifs with h
  · exact h
  · simp

/-- `setOpt` keeps the key list duplicate-free. -/
theorem nodup_keys_setOpt (l : List (String × String)) (k v : String)
    (h : (l.map Prod.fst).Nodup) : ((setOpt l k v).map Prod.fst).Nodup := by
  rw [keys_setOpt]
  split_ifs with hm
  · exact h
  · simp [List.nodup_append, h, hm]

/-- `setOpt` never returns the empty list. -/
theorem setOpt_ne_nil (l : List (String × String)) (k v : String) :
    setOpt l k v ≠ [] := by
  cases l with
  | nil => simp [setOpt]
  | cons a t =>
    obtain ⟨k', v'⟩ := a
    simp only [setOpt]
    split <;> simp

/-- `appendOpt` leaves the key list unchanged. -/
theorem keys_appendOpt (l : List (String × String)) (k v : String) :
    (appendOpt l k v).map Prod.fst = l.map Prod.fst := by
  induction l with
  | nil => rfl
  | cons a t ih =>
    obtain ⟨k', v'⟩ := a
    simp only [appendOpt]
    split <;> simp [ih]

/-- The labels of the built options are exactly the sorted keys. -/
theorem options_map_label (qid : String) (s : PState) :
    (buildQuestion qid s).options.map (fun o => o.original_label)
      = sortKeys (s.current_options.map Prod.fst) := by
  unfold buildQuestion
  rw [List.map_map]
  exact List.map_id _

/-- A question built from a nonempty, duplicate-free accumulator satisfies
`BankProp`. -/
theorem bankProp_buildQuestion (qid : String) (s : PState)
    (hopts : s.current_options ≠ [])
    (hnd : (s.current_options.map Prod.fst).Nodup) :
    BankProp (buildQuestion qid s) := by
  constructor
  · have : (buildQuestion qid s).options.length = s.current_options.length := by
      simp [buildQuestion, sortKeys_length]
    rw [this]
    exact List.length_pos.mpr hopts
  · rw [options_map_label]
    exact sortKeys_sorted_lt _ hnd

/-- The bank after `finalize_question`, as the source computes it. -/
theorem finalize_questions_eq (s : PState) :
    (finalize_question s).questions =
      match s.current_q_id with
      | some qid =>
          if qid ≠ "" ∧ s.current_options ≠ [] ∧ s.current_correct ≠ [] then
            s.questions ++ [buildQuestion qid s]
          else s.questions
      | none => s.questions := rfl

/-- `finalize_question` resets the accumulator and preserves the invariant. -/
theorem stateInv_finalize (s : PState) (h : StateInv s) :
    StateInv (finalize_question s) := by
  obtain ⟨hnd, hlast, hq⟩ := h
  refine ⟨by simp [finalize_question], by simp [finalize_question], ?_⟩
  intro q hq'
  cases hid : s.current_q_id with
  | none =>
      rw [finalize_questions_eq, hid] at hq'
      exact hq q hq'
  | some qid =>
      rw [finalize_questions_eq, hid] at hq'
      have hq2 : q ∈ (if qid ≠ "" ∧ s.current_options ≠ [] ∧ s.current_correct ≠ [] then
          s.questions ++ [buildQuestion qid s] else s.questions) := hq'
      by_cases hc : qid ≠ "" ∧ s.current_options ≠ [] ∧ s.current_correct ≠ []
      · rw [if_pos hc] at hq2
        rcases List.mem_append.mp hq2 with h1 | h2
        · exact hq q h1
        · rw [List.mem_singleton] at h2
          subst h2
          exact bankProp_buildQuestion qid s hc.2.1 hnd
      · rw [if_neg hc] at hq2
        exact hq q hq2

/-- The image associator changes only `current_image_data`. -/
theorem stateInv_attach (s : PState) (p : RawParagraph) (h : StateInv s) :
    StateInv (attachImage s p) := by
  unfold attachImage
  split
  · exact h
  · exact h

/-- Every classified event preserves the invariant. -/
theorem stateInv_applyEvent (s : PState) (t : String) (h : StateInv s) :
    StateInv (applyEvent s t) := by
  obtain ⟨hnd, hlast, hq⟩ := h
  unfold applyEvent
  cases hcl : classify t with
  | qstart qid rest0 =>
      dsimp only
      exact ⟨List.nodup_nil, fun hne => absurd rfl hne,
             (stateInv_finalize s ⟨hnd, hlast, hq⟩).2.2⟩
  | correctAns raw => exact ⟨hnd, hlast, hq⟩
  | optionLine label0 rest =>
      exact ⟨nodup_keys_setOpt _ _ _ hnd,
             fun _ => ⟨_, rfl, mem_keys_setOpt _ _ _⟩, hq⟩
  | other =>
      dsimp only
      by_cases hid : pyTruthyId s.current_q_id
      · rw [if_pos hid]
        by_cases hopts : s.current_options = []
        · rw [if_pos hopts]
          exact ⟨hnd, fun hne => absurd hopts hne, hq⟩
        · rw [if_neg hopts]
          cases hls : s.last_option_label with
          | none => exact ⟨hnd, hlast, hq⟩
          | some l =>
              dsimp only
              by_cases hl : l = ""
              · rw [if_pos hl]
                exact ⟨hnd, hlast, hq⟩
              · rw [if_neg hl]
                obtain ⟨l0, he, hm⟩ := hlast hopts
                rw [hls, Option.some.injEq] at he
                subst he
                refine ⟨by rw [keys_appendOpt]; exact hnd, fun _ => ⟨l, rfl, ?_⟩, hq⟩
                rw [keys_appendOpt]
                exact hm
      · rw [if_neg hid]
        exact ⟨hnd, hlast, hq⟩

/-- One loop iteration preserves the invariant. -/
theorem stateInv_process (s : PState) (p : RawParagraph) (h : StateInv s) :
    StateInv (processPara s p) := by
  unfold processPara
  split
  · exact stateInv_attach s p h
  · exact stateInv_applyEvent _ _ (stateInv_attach s p h)

/-- The initial state satisfies the invariant. -/
theorem stateInv_init : StateInv initState := by
  refine ⟨?_, ?_, ?_⟩ <;> simp [initState, StateInv]

/-- The invariant holds after folding any paragraph stream. -/
theorem stateInv_foldl (ps : List RawParagraph) (s : PState) (h : StateInv s) :
    StateInv (ps.foldl processPara s) := by
  induction ps generalizing s with
  | nil => exact h
  | cons p t ih => exact ih _ (stateInv_process s p h)

/-- Every question of a parsed bank satisfies `BankProp`. -/
theorem bankProp_of_mem_parseParas (ps : List RawParagraph) (q : Question)
    (h : q ∈ parseParas ps) : BankProp q :=
  (stateInv_finalize _ (stateInv_foldl ps initState stateInv_init)).2.2 q h

/-- Events other than a question start never touch `current_image_data`. -/
theorem applyEvent_image (s : PState) (t : String) (h : matchQStart t = none) :
    (applyEvent s t).current_image_data = s.current_image_data := by
  unfold applyEvent classify
  rw [h]
  cases hm : matchCorrect t with
  | some raw => rfl
  | none =>
    cases hmo : matchOption t with
    | some pr =>
        obtain ⟨a, b⟩ := pr
        rfl
    | none =>
      dsimp only
      by_cases hid : pyTruthyId s.current_q_id
      · rw [if_pos hid]
        by_cases hopts : s.current_options = []
        · rw [if_pos hopts]
        · rw [if_neg hopts]
          cases s.last_option_label with
          | none => rfl
          | some l =>
            dsimp only
            by_cases hl : l = ""
            · rw [if_pos hl]
            · rw [if_neg hl]
      · rw [if_neg hid]

/-- A successful case-insensitive literal match pins down the head character. -/
theorem ciMatch_head (p : Char) (ps cs : List Char) (r : List Char)
    (h : ciMatch (p :: ps) cs = some r) :
    ∃ c cs', cs = c :: cs' ∧ (c = p ∨ c = lowToUp p) := by
  cases cs with
  | nil => exact absurd h (by simp [ciMatch])
  | cons c cs' =>
    by_cases hc : c = p ∨ c = lowToUp p
    · exact ⟨c, cs', rfl, hc⟩
    · simp [ciMatch, hc] at h

/-- The question-start and correct-answer patterns are disjoint: after the
leading `**` one needs a digit, the other the letter `c`/`C`. -/
theorem matchQStart_none_of_matchCorrect (t : String) (raw : String)
    (h : matchCorrect t = some raw) : matchQStart t = none := by
  unfold matchCorrect at h
  unfold matchQStart
  generalize t.data.dropWhile pySpace = cs at h ⊢
  cases cs with
  | nil => exact Option.noConfusion h
  | cons c1 cs1 =>
    cases cs1 with
    | nil => exact Option.noConfusion h
    | cons c2 rest =>
      dsimp only at h ⊢
      by_cases hstar : c1 = '*' ∧ c2 = '*'
      · rw [if_pos hstar] at h ⊢
        generalize hci : ciMatch "correct answer:".data rest = oc at h
        cases oc with
        | none => exact Option.noConfusion h
        | some r1 =>
            have hdata : "correct answer:".data = 'c' :: "orrect answer:".data := rfl
            obtain ⟨c, cs', hrest, hcc⟩ := ciMatch_head 'c' _ rest r1 (hdata ▸ hci)
            have hdig : Char.isDigit c = false := by
              rcases hcc with rfl | hcc
              · decide
              · rw [show lowToUp 'c' = 'C' from by decide] at hcc
                subst hcc
                decide
            have htw : rest.takeWhile Char.isDigit = [] := by
              rw [hrest]
              exact List.takeWhile_cons_of_neg (by simp [hdig])
            rw [htw]
      · rw [if_neg hstar]

/-- C1 counterexample: the declared correct label `F` matches no recorded
option, so the emitted question's only option has `is_correct = false` —
the bank holds a question with no correct option. -/
theorem C1_counterexample :
    (parseParas [⟨"**1. Q**", none⟩, ⟨"A. foo", none⟩,
        ⟨"**Correct Answer:** F", none⟩]).map
      (fun q => q.options.map (fun o => o.is_correct)) = [[false]] := rfl

/-- C1 (amended): every Question in a parsed bank has at least one option;
an `is_correct = true` option is not guaranteed, because a declared correct
label may match no recorded option label. -/
theorem C1_amended (ps : List RawParagraph) (q : Question)
    (h : q ∈ parseParas ps) : 1 ≤ q.options.length :=
  (bankProp_of_mem_parseParas ps q h).1

/-- C1 witness: the amended theorem at the spec's scenario 1. -/
theorem C1_amended_witness :
    1 ≤ (Question.mk 1 "What is 2+2?"
        [⟨"3", false, "A"⟩, ⟨"4", true, "B"⟩] false none).options.length :=
  C1_amended [⟨"**1. What is 2+2?**", none⟩, ⟨"A. 3", none⟩, ⟨"B. 4", none⟩,
      ⟨"**Correct Answer:** B", none⟩] _ (by
    rw [show parseParas [⟨"**1. What is 2+2?**", none⟩, ⟨"A. 3", none⟩,
        ⟨"B. 4", none⟩, ⟨"**Correct Answer:** B", none⟩]
      = [Question.mk 1 "What is 2+2?"
          [⟨"3", false, "A"⟩, ⟨"4", true, "B"⟩] false none] from rfl]
    exact List.mem_singleton.mpr rfl)

/-- C2 counterexample: two image-bearing paragraphs arrive while question 1
is open and before its correct-answer line; the finalized question carries
the second blob `[2]`, not the first blob `[1]`. -/
theorem C2_counterexample :
    (parseParas [⟨"**1. Q**", none⟩, ⟨"", some [1]⟩, ⟨"", some [2]⟩,
        ⟨"A. x", none⟩, ⟨"**Correct Answer:** A", none⟩]).map
      (fun q => q.image_data) = [some [2]]
    ∧ ([1] : Blob) ≠ [2] := ⟨rfl, by decide⟩

/-- C2 (amended): while a question is open and the correct-label list is
still empty, every paragraph bearing a truthy blob that is not a question
start overwrites `current_image_data` with its own blob — the last
qualifying image wins, not the first. -/
theorem C2_amended (s : PState) (p : RawParagraph) (b : Blob)
    (himg : p.image = some b) (hb : b ≠ [])
    (hq : pyTruthyId s.current_q_id = true) (hc : s.current_correct = [])
    (hnq : matchQStart (pyStrip p.text) = none) :
    (processPara s p).current_image_data = some b := by
  have htb : pyTruthyBlob p.image = true := by
    rw [himg]
    simp [pyTruthyBlob, hb]
  have hat : attachImage s p = { s with current_image_data := p.image } := by
    unfold attachImage
    rw [if_pos ⟨htb, hq, hc⟩]
  unfold processPara
  rw [if_neg (by rintro ⟨-, hn⟩; exact hn htb), hat, applyEvent_image _ _ hnq]
  exact himg

/-- C2 witness: a qualifying image paragraph sets the accumulator's image. -/
theorem C2_amended_witness :
    (processPara ⟨[], some "1", [], [], none, [], none⟩
        ⟨"pic", some [9]⟩).current_image_data = some [9] :=
  C2_amended ⟨[], some "1", [], [], none, [], none⟩ ⟨"pic", some [9]⟩ [9]
    rfl (by decide) (by decide) rfl rfl

/-- C3 counterexample: the declared tokens of `Correct Answer: A, A` contain
one distinct label, yet the emitted question is flagged multichoice — the
code counts the token list with multiplicity. -/
theorem C3_counterexample :
    (parseParas [⟨"**1. Q**", none⟩, ⟨"A. x", none⟩,
        ⟨"**Correct Answer:** A, A", none⟩]).map (fun q => q.is_multichoice)
      = [true]
    ∧ (splitTokens "A, A").dedup.length = 1 := ⟨rfl, by decide⟩

/-- C3 (amended): `is_multichoice` holds iff the token list parsed from the
last correct-answer line — counted with multiplicity, whether or not the
tokens match any recorded option — has more than one entry. -/
theorem C3_amended (s : PState) (qid : String)
    (h1 : s.current_q_id = some qid) (h2 : qid ≠ "")
    (h3 : s.current_options ≠ []) (h4 : s.current_correct ≠ []) :
    ∃ q, (finalize_question s).questions = s.questions ++ [q]
      ∧ (q.is_multichoice = true ↔ 1 < s.current_correct.length) := by
  refine ⟨buildQuestion qid s, ?_, ?_⟩
  · rw [finalize_questions_eq, h1]
    exact if_pos ⟨h2, h3, h4⟩
  · simp [buildQuestion]

/-- C3 witness: a two-token declaration makes the built question multichoice. -/
theorem C3_amended_witness :
    ∃ q, (finalize_question ⟨[], some "1", ["Q"], [("A", "x")], some "A",
        ["A", "B"], none⟩).questions = [] ++ [q]
      ∧ (q.is_multichoice = true ↔ 1 < (["A", "B"] : List String).length) :=
  C3_amended ⟨[], some "1", ["Q"], [("A", "x")], some "A", ["A", "B"], none⟩
    "1" rfl (by decide) (by decide) (by decide)

/-- C4 counterexample: the bare text `Correct Answer: B` satisfies the
claim's pattern (case-insensitive literal then letter token `B`), but the
classifier, whose regex demands the literal `**Correct Answer:**`,
classifies it as Other. -/
theorem C4_counterexample :
    claimCorrectLabels "Correct Answer: B" = some ["B"]
    ∧ classify "Correct Answer: B" = LineClass.other := ⟨rfl, rfl⟩

/-- C4 (amended): the classifier yields a CorrectAnswerLine event exactly
for texts matching optional whitespace, `**`, case-insensitive
`Correct Answer:`, `**`, with the rest of the line as captured group (which
may hold zero tokens or non-letter tokens); processing such a paragraph
replaces the correct-label list with the group's comma/whitespace-separated
tokens, uppercased. -/
theorem C4_amended (t raw : String) :
    (classify t = LineClass.correctAns raw ↔ matchCorrect t = some raw)
    ∧ ∀ s : PState, classify (pyStrip t) = LineClass.correctAns raw →
        (processPara s ⟨t, none⟩).current_correct = splitTokens raw := by
  constructor
  · constructor
    · intro h
      unfold classify at h
      generalize hq : matchQStart t = mq at h
      cases mq with
      | some pr =>
          obtain ⟨a, b⟩ := pr
          exact LineClass.noConfusion h
      | none =>
          generalize hm : matchCorrect t = mc at h
          cases mc with
          | some r =>
              injection h with h'
              rw [h']
          | none =>
              generalize hmo : matchOption t = mo at h
              cases mo with
              | some pr =>
                  obtain ⟨a, b⟩ := pr
                  exact LineClass.noConfusion h
              | none => exact LineClass.noConfusion h
    · intro h
      unfold classify
      rw [matchQStart_none_of_matchCorrect t raw h, h]
  · intro s h
    have hskip : ¬ (pyStrip (RawParagraph.mk t none).text = ""
        ∧ ¬ pyTruthyBlob (RawParagraph.mk t none).image = true) := by
      rintro ⟨he, -⟩
      rw [show (RawParagraph.mk t none).text = t from rfl] at he
      rw [he] at h
      exact LineClass.noConfusion h
    have hat : attachImage s ⟨t, none⟩ = s := by
      unfold attachImage
      rw [if_neg]
      rintro ⟨hb, -⟩
      exact Bool.noConfusion hb
    unfold processPara
    rw [if_neg hskip, hat]
    unfold applyEvent
    dsimp only
    rw [h]

/-- C4 witness: the amended theorem at a lower-case correct-answer line. -/
theorem C4_amended_witness :
    (processPara initState
        ⟨"**Correct Answer:** b", none⟩).current_correct = splitTokens "b" :=
  (C4_amended "**Correct Answer:** b" "b").2 initState rfl

/-- C5: a finalization whose accumulator lacks options or correct labels
appends no question — the state is reset with the bank unchanged — and an
opened document never surfaces an error, so parsing just continues. -/
theorem C5_dropped (s : PState)
    (h : s.current_options = [] ∨ s.current_correct = []) :
    finalize_question s = { initState with questions := s.questions }
    ∧ ∀ (fp : String) (ps : List RawParagraph),
        (ExamParser.parse fp (DocAccess.opened ps)).2 = none := by
  constructor
  · have hq : (finalize_question s).questions = s.questions := by
      rw [finalize_questions_eq]
      cases hid : s.current_q_id with
      | none => rfl
      | some qid =>
          dsimp only
          have hneg : ¬ (qid ≠ "" ∧ s.current_options ≠ [] ∧
              s.current_correct ≠ []) := by
            rintro ⟨-, ho, hc⟩
            rcases h with h' | h'
            · exact ho h'
            · exact hc h'
          rw [if_neg hneg]
    have hrfl : finalize_question s
        = ⟨(finalize_question s).questions, none, [], [], none, [], none⟩ := rfl
    rw [hrfl, hq]
    rfl
  · intro fp ps
    rfl

/-- C5 witness: a dangling question start is dropped, and in a stream whose
first block has no options the second question is still extracted. -/
theorem C5_dropped_witness :
    (finalize_question ⟨[], some "1", [], [], none, [], none⟩
        = { initState with questions := [] }
      ∧ ∀ (fp : String) (ps : List RawParagraph),
          (ExamParser.parse fp (DocAccess.opened ps)).2 = none)
    ∧ (parseParas [⟨"**1. Q**", none⟩, ⟨"**2. R**", none⟩, ⟨"A. x", none⟩,
        ⟨"**Correct Answer:** A", none⟩]).map (fun q => q.id) = [2] :=
  ⟨C5_dropped ⟨[], some "1", [], [], none, [], none⟩ (Or.inl rfl), rfl⟩

/-- C6: a missing path or unreadable container yields the empty bank plus a
human-readable message and no partial bank; an opened document yields no
error component. -/
theorem C6_parse_failure (fp e : String) (ps : List RawParagraph) :
    ExamParser.parse fp DocAccess.missing
        = ([], some ("File not found: " ++ fp))
    ∧ ExamParser.parse fp (DocAccess.openError e)
        = ([], some ("Error reading file: " ++ e))
    ∧ (ExamParser.parse fp (DocAccess.opened ps)).2 = none :=
  ⟨rfl, rfl, rfl⟩

/-- C7: every emitted question's options are in strictly ascending order of
original label, whatever order the labels appeared in the source. -/
theorem C7_sorted (ps : List RawParagraph) (q : Question)
    (h : q ∈ parseParas ps) :
    (q.options.map (fun o => o.original_label)).Sorted
      (fun a b => a.data < b.data) :=
  (bankProp_of_mem_parseParas ps q h).2

/-- C7 witness: labels appear as B then A in the source, come out A then B. -/
theorem C7_sorted_witness :
    ((Question.mk 1 "Q" [⟨"3", false, "A"⟩, ⟨"4", true, "B"⟩] false
        none).options.map (fun o => o.original_label)).Sorted
      (fun a b => a.data < b.data) :=
  C7_sorted [⟨"**1. Q**", none⟩, ⟨"B. 4", none⟩, ⟨"A. 3", none⟩,
      ⟨"**Correct Answer:** B", none⟩] _ (by
    rw [show parseParas [⟨"**1. Q**", none⟩, ⟨"B. 4", none⟩, ⟨"A. 3", none⟩,
        ⟨"**Correct Answer:** B", none⟩]
      = [Question.mk 1 "Q"
          [⟨"3", false, "A"⟩, ⟨"4", true, "B"⟩] false none] from rfl]
    exact List.mem_singleton.mpr rfl)

/-- C8 counterexample: an image-bearing empty paragraph is newline-appended
to option A, whose accumulated text becomes `"x\n"`; the finalizer emits it
untrimmed, so the emitted text differs from its trim `"x"`. -/
theorem C8_counterexample :
    (parseParas [⟨"**1. Q**", none⟩, ⟨"A. x", none⟩, ⟨"", some [7]⟩,
        ⟨"**Correct Answer:** A", none⟩]).map
      (fun q => q.options.map (fun o => o.text)) = [["x\n"]]
    ∧ pyStrip "x\n" ≠ "x\n" := ⟨rfl, by decide⟩

/-- C8 (amended): each emitted option's text equals exactly the accumulated
string stored under its label — no trim is applied at finalization (the text
was stripped at option recognition, and continuations append a newline plus
the stripped continuation text, so an empty continuation leaves a trailing
newline). -/
theorem C8_amended (s : PState) (qid : String)
    (h1 : s.current_q_id = some qid) (h2 : qid ≠ "")
    (h3 : s.current_options ≠ []) (h4 : s.current_correct ≠ []) :
    ∃ q, (finalize_question s).questions = s.questions ++ [q]
      ∧ ∀ o ∈ q.options,
          o.text = lookupOpt s.current_options o.original_label := by
  refine ⟨buildQuestion qid s, ?_, ?_⟩
  · rw [finalize_questions_eq, h1]
    exact if_pos ⟨h2, h3, h4⟩
  · intro o ho
    simp only [buildQuestion, List.mem_map] at ho
    obtain ⟨k, hk, rfl⟩ := ho
    rfl

/-- C8 witness: the untrimmed accumulated text `"x\n"` is emitted as is. -/
theorem C8_amended_witness :
    ∃ q, (finalize_question ⟨[], some "1", ["Q"], [("A", "x\n")], some "A",
        ["A"], none⟩).questions = [] ++ [q]
      ∧ ∀ o ∈ q.options,
          o.text = lookupOpt [("A", "x\n")] o.original_label :=
  C8_amended ⟨[], some "1", ["Q"], [("A", "x\n")], some "A", ["A"], none⟩
    "1" rfl (by decide) (by decide) (by decide)

/-- C9: parsing is deterministic — two paragraph streams with pointwise
equal texts and image blobs produce identical banks. -/
theorem C9_deterministic (ps qs : List RawParagraph)
    (hlen : ps.length = qs.length)
    (h : ∀ (i : Nat) (hi : i < ps.length) (hj : i < qs.length),
        (ps.get ⟨i, hi⟩).text = (qs.get ⟨i, hj⟩).text
        ∧ (ps.get ⟨i, hi⟩).image = (qs.get ⟨i, hj⟩).image) :
    parseParas ps = parseParas qs := by
  have heq : ps = qs :=
    List.ext_get hlen (fun n h1 h2 =>
      RawParagraph.ext (h n h1 h2).1 (h n h1 h2).2)
  rw [heq]

/-- C9 witness: re-parsing an identical stream reproduces the bank. -/
theorem C9_deterministic_witness :
    parseParas [⟨"**1. Q**", none⟩, ⟨"A. x", some [5]⟩,
        ⟨"**Correct Answer:** A", none⟩]
      = parseParas [⟨"**1. Q**", none⟩, ⟨"A. x", some [5]⟩,
        ⟨"**Correct Answer:** A", none⟩] :=
  C9_deterministic _ _ rfl (fun _ _ _ => ⟨rfl, rfl⟩)

/-- C10: at every reachable loop state, a nonempty option dict comes with a
set `last_option_label` that is one of its keys, so the Other-line
continuation update always targets an existing entry and cannot fail. -/
theorem C10_last_label (ps : List RawParagraph)
    (h : (ps.foldl processPara initState).current_options ≠ []) :
    ∃ l, (ps.foldl processPara initState).last_option_label = some l
      ∧ l ∈ (ps.foldl processPara initState).current_options.map Prod.fst :=
  (stateInv_foldl ps initState stateInv_init).2.1 h

/-- C10 witness: after one option line, the label `A` is the stored key. -/
theorem C10_last_label_witness :
    ∃ l, (([⟨"A. x", none⟩] : List RawParagraph).foldl processPara
        initState).last_option_label = some l
      ∧ l ∈ (([⟨"A. x", none⟩] : List RawParagraph).foldl processPara
        initState).current_options.map Prod.fst :=
  C10_last_label [⟨"A. x", none⟩] (by decide)
